import Mathlib

/-!
# Verification of the stopcon core: tokenized filename pattern engine and
# fragment-to-recording aggregation

Shallow embedding of the repository's `format` package (pattern tokens,
matchers compiled from one base template) and the `entrypoint` package
(fragment parsing, metadata probing, the aggregator `VideoList.Add`, and
the rename orchestrator).  Strings are modelled as `List Char`; the external
`ffprobe` capability is an explicit oracle argument.
-/

namespace Stopcon

/-! ## Character classes

The `format` package's token capture groups use the classes `[0-9]`,
`[a-zA-Z0-9]` and `[XH]` (ASCII, as in Go's regexp on these patterns). -/

def isDigitChar (c : Char) : Bool := '0' ≤ c && c ≤ '9'

def isAlnumChar (c : Char) : Bool :=
  ('a' ≤ c && c ≤ 'z') || ('A' ≤ c && c ≤ 'Z') || isDigitChar c

def isCodecChar (c : Char) : Bool := c = 'X' || c = 'H'

/-! ## Matching combinators

Building blocks for the compiled whole-string patterns (`^...$` in
`matcher.compile`).  Every element of the three compiled regexes is of
fixed width except the final `[a-zA-Z0-9]+` group, which is the last
element before `$`; hence matching is deterministic and these
backtracking-free combinators have exactly the regexp semantics. -/

/-- `[c]{n}`-style element: exactly `n` characters satisfying `p`. -/
def takeClass (p : Char → Bool) : Nat → List Char → Option (List Char × List Char)
  | 0, s => some ([], s)
  | _ + 1, [] => none
  | n + 1, c :: s =>
    if p c then (takeClass p n s).map (fun g => (c :: g.1, g.2)) else none

/-- One literal character. -/
def takeLit (c : Char) : List Char → Option (List Char)
  | [] => none
  | x :: s => if x = c then some s else none

/-- A literal segment of the template. -/
def takeLits : List Char → List Char → Option (List Char)
  | [], s => some s
  | c :: cs, s =>
    match takeLit c s with
    | none => none
    | some r => takeLits cs r

/-- The regexp metacharacter `.`: any character except newline (the base
templates contain an unescaped `.` before the extension token). -/
def takeDot : List Char → Option (Char × List Char)
  | [] => none
  | c :: s => if c ≠ '\n' then some (c, s) else none

/-- Final `[...]+$` element: the whole remaining input, which must be
nonempty and inside the class. -/
def takePlusToEnd (p : Char → Bool) (s : List Char) : Option (List Char) :=
  if s ≠ [] && s.all p then some s else none

/-- Capture group of the `date` token:
`[0-9]{4}-[0-9]{2}-[0-9]{2} [0-9]{2}_[0-9]{2}_[0-9]{2}`. -/
def takeDateGroup (s : List Char) : Option (List Char × List Char) :=
  (takeClass isDigitChar 4 s).bind fun y =>
  (takeLit '-' y.2).bind fun r1 =>
  (takeClass isDigitChar 2 r1).bind fun mo =>
  (takeLit '-' mo.2).bind fun r2 =>
  (takeClass isDigitChar 2 r2).bind fun d =>
  (takeLit ' ' d.2).bind fun r3 =>
  (takeClass isDigitChar 2 r3).bind fun h =>
  (takeLit '_' h.2).bind fun r4 =>
  (takeClass isDigitChar 2 r4).bind fun mi =>
  (takeLit '_' mi.2).bind fun r5 =>
  (takeClass isDigitChar 2 r5).map fun sec =>
    (y.1 ++ '-' :: mo.1 ++ '-' :: d.1 ++ ' ' :: h.1 ++ '_' :: mi.1 ++ '_' :: sec.1,
     sec.2)

/-! ## The three predefined matchers

`format.Raw`, `format.Renamed`, `format.Merged`: each base template is
compiled into an anchored capture pattern (token capture groups substituted,
parenthesized) and a formatting layout (format specifiers substituted). -/

/-- Literal segment `Recording _-_ Date ` of the renamed/merged templates. -/
def litRecordingDate : List Char :=
  ['R', 'e', 'c', 'o', 'r', 'd', 'i', 'n', 'g', ' ', '_', '-', '_', ' ',
   'D', 'a', 't', 'e', ' ']

/-- Literal segment ` _-_ ID ` of the renamed/merged templates. -/
def litID : List Char := [' ', '_', '-', '_', ' ', 'I', 'D', ' ']

/-- Literal segment ` _-_ Part ` of the renamed template. -/
def litPart : List Char := [' ', '_', '-', '_', ' ', 'P', 'a', 'r', 't', ' ']

/-- `format.Raw` compiled pattern `^G([XH])([0-9]{2})([0-9]{4}).([a-zA-Z0-9]+)$`
(base `G%s%s%s.%s`, tokens codec, index, id, extension).  Returns the
captured groups in token order, like `Regex.FindStringSubmatch` minus the
whole-match entry. -/
def rawMatch (s : List Char) : Option (List (List Char)) :=
  (takeLit 'G' s).bind fun r =>
  (takeClass isCodecChar 1 r).bind fun cd =>
  (takeClass isDigitChar 2 cd.2).bind fun ix =>
  (takeClass isDigitChar 4 ix.2).bind fun idd =>
  (takeDot idd.2).bind fun x =>
  (takePlusToEnd isAlnumChar x.2).map fun ext => [cd.1, ix.1, idd.1, ext]

/-- `format.Renamed` compiled pattern
`^Recording _-_ Date (date) _-_ ID ([0-9]{4}) _-_ Part ([0-9]{2}).([a-zA-Z0-9]+)$`
(base `Recording _-_ Date %s _-_ ID %s _-_ Part %s.%s`,
tokens date, id, index, extension). -/
def renamedMatch (s : List Char) : Option (List (List Char)) :=
  (takeLits litRecordingDate s).bind fun r =>
  (takeDateGroup r).bind fun date =>
  (takeLits litID date.2).bind fun r1 =>
  (takeClass isDigitChar 4 r1).bind fun idd =>
  (takeLits litPart idd.2).bind fun r2 =>
  (takeClass isDigitChar 2 r2).bind fun ix =>
  (takeDot ix.2).bind fun x =>
  (takePlusToEnd isAlnumChar x.2).map fun ext => [date.1, idd.1, ix.1, ext]

/-- `format.Merged` compiled pattern
`^Recording _-_ Date (date) _-_ ID ([0-9]{4}).([a-zA-Z0-9]+)$`
(base `Recording _-_ Date %s _-_ ID %s.%s`, tokens date, id, extension). -/
def mergedMatch (s : List Char) : Option (List (List Char)) :=
  (takeLits litRecordingDate s).bind fun r =>
  (takeDateGroup r).bind fun date =>
  (takeLits litID date.2).bind fun r1 =>
  (takeClass isDigitChar 4 r1).bind fun idd =>
  (takeDot idd.2).bind fun x =>
  (takePlusToEnd isAlnumChar x.2).map fun ext => [date.1, idd.1, ext]

/-! ## Rendering layouts

The same base templates with each token's format specifier substituted:
`%s` inserts the value, the index token's `%02d` zero-pads to width two. -/

/-- Go's `%02d`: decimal digits of `n`, left-padded with `0` to width 2. -/
def pad2 (n : Nat) : List Char :=
  if n < 10 then '0' :: (Nat.repr n).data else (Nat.repr n).data

/-- Go's `%04d`-style zero padding to width 4 (the `2006` year field of the
time layout). -/
def pad4 (n : Nat) : List Char :=
  List.replicate (4 - (Nat.repr n).data.length) '0' ++ (Nat.repr n).data

/-- `format.Renamed.Layout`: `Recording _-_ Date %s _-_ ID %s _-_ Part %02d.%s`. -/
def renamedName (date idv : List Char) (index : Nat) (ext : List Char) : List Char :=
  litRecordingDate ++ date ++ litID ++ idv ++ litPart ++ pad2 index ++ '.' :: ext

/-- `format.Merged.Layout`: `Recording _-_ Date %s _-_ ID %s.%s`. -/
def mergedName (date idv ext : List Char) : List Char :=
  litRecordingDate ++ date ++ litID ++ idv ++ '.' :: ext

/-- `format.Raw.Layout`: `G%s%02d%s.%s` (unused by the program but produced
by `compile`). -/
def rawName (codec : List Char) (index : Nat) (idv ext : List Char) : List Char :=
  'G' :: codec ++ pad2 index ++ idv ++ '.' :: ext

/-! ## Timestamps

`entrypoint.parseMetadata` parses the probed `creation_time` string with the
Go layout `2006-01-02T15:04:05.9Z` (fixed-width numeric fields, an optional
fractional second of at most nine digits introduced by `.` or `,`, and a
literal trailing `Z`), and `Metadata.CreationTimeString` formats the result
with the layout `2006-01-02 15_04_05`. -/

structure Timestamp where
  year : Nat
  month : Nat
  day : Nat
  hour : Nat
  minute : Nat
  second : Nat
  /-- Sub-second part in nanoseconds, as Go's `time.Time` stores it. -/
  nanos : Nat
deriving DecidableEq, Repr

/-- Whether `y` is a leap year (Gregorian rule, as in Go's `time`). -/
def isLeapYear (y : Nat) : Bool :=
  (y % 4 = 0 && y % 100 ≠ 0) || y % 400 = 0

/-- Days in month `m` of year `y` (Go's `daysIn`, used by `time.Parse` to
range-check the day field). -/
def daysInMonth (y m : Nat) : Nat :=
  if m = 2 then (if isLeapYear y then 29 else 28)
  else if m = 4 || m = 6 || m = 9 || m = 11 then 30
  else 31

/-- Decimal value of a digit string (the semantics of `strconv.Atoi` on the
all-digit capture groups fed to it). -/
def digitsToNat (s : List Char) : Nat :=
  s.foldl (fun a c => 10 * a + (c.toNat - 48)) 0

/-- `strconv.Atoi` restricted to the unsigned inputs that occur here: fails
unless the string is nonempty and all digits. -/
def atoiNat (s : List Char) : Option Nat :=
  if s ≠ [] && s.all isDigitChar then some (digitsToNat s) else none

/-- Fractional-second part: `.` or `,` followed by one to nine digits,
scaled to nanoseconds; absent fraction is zero nanoseconds.  Returns
`(nanos, rest)`.  (With ten or more digits Go consumes nine and then fails
on the following literal `Z`; here the overlong fraction fails directly.) -/
def takeFraction : List Char → Option (Nat × List Char)
  | [] => some (0, [])
  | c :: s =>
    if c = '.' || c = ',' then
      let ds := s.takeWhile isDigitChar
      if ds.length = 0 || ds.length > 9 then none
      else some (digitsToNat ds * 10 ^ (9 - ds.length), s.drop ds.length)
    else some (0, c :: s)

/-- `time.Parse "2006-01-02T15:04:05.9Z"`: fixed-width numeric fields with
literal separators, optional fraction, literal `Z`, end of input, and the
range checks Go applies (month, day-in-month, hour, minute, second). -/
def parseCreationTime (s : List Char) : Option Timestamp :=
  match takeClass isDigitChar 4 s with
  | none => none
  | some (y, r) =>
  match takeLit '-' r with
  | none => none
  | some r =>
  match takeClass isDigitChar 2 r with
  | none => none
  | some (mo, r) =>
  match takeLit '-' r with
  | none => none
  | some r =>
  match takeClass isDigitChar 2 r with
  | none => none
  | some (d, r) =>
  match takeLit 'T' r with
  | none => none
  | some r =>
  match takeClass isDigitChar 2 r with
  | none => none
  | some (h, r) =>
  match takeLit ':' r with
  | none => none
  | some r =>
  match takeClass isDigitChar 2 r with
  | none => none
  | some (mi, r) =>
  match takeLit ':' r with
  | none => none
  | some r =>
  match takeClass isDigitChar 2 r with
  | none => none
  | some (sec, r) =>
  match takeFraction r with
  | none => none
  | some (ns, r) =>
  match takeLit 'Z' r with
  | none => none
  | some r =>
    if r = [] then
      let yv := digitsToNat y
      let mov := digitsToNat mo
      let dv := digitsToNat d
      let hv := digitsToNat h
      let miv := digitsToNat mi
      let sv := digitsToNat sec
      if 1 ≤ mov && mov ≤ 12 && 1 ≤ dv && dv ≤ daysInMonth yv mov &&
         hv ≤ 23 && miv ≤ 59 && sv ≤ 59 then
        some ⟨yv, mov, dv, hv, miv, sv, ns⟩
      else none
    else none

/-- `Metadata.CreationTimeString` on a present timestamp: Go layout
`2006-01-02 15_04_05`. -/
def creationTimeString (t : Timestamp) : List Char :=
  pad4 t.year ++ '-' :: pad2 t.month ++ '-' :: pad2 t.day ++
  ' ' :: pad2 t.hour ++ '_' :: pad2 t.minute ++ '_' :: pad2 t.second

/-- `Metadata.CreationTimeString`: empty when the `CreationTime` pointer is
nil, otherwise the formatted timestamp. -/
def creationTimeStringOpt : Option Timestamp → List Char
  | none => []
  | some t => creationTimeString t

/-! ## The probe capability

`parseMetadata` shells out to `ffprobe`, unmarshals the JSON reply into
`ff.ProbeData` and reads `Streams[0].CodecName` and the format tag
`creation_time`.  The external process and the JSON decoding are modelled
as one oracle returning the decoded data (codec name of the first stream,
format tag map) or `none` for a process/decoding failure. -/

/-- A JSON tag value: a string, or any non-string JSON value. -/
inductive TagValue where
  | str (s : List Char)
  | nonstr
deriving DecidableEq

/-- The decoded probe reply: `Streams[0].CodecName` and `Format.Tags`. -/
structure ProbeOutput where
  codec : List Char
  tags : List (List Char × TagValue)
deriving DecidableEq

/-- The external probe capability: filename to decoded reply, `none` on
process or unmarshalling failure. -/
def Probe : Type := List Char → Option ProbeOutput

/-- The key `creation_time`. -/
def creationTimeKey : List Char :=
  ['c', 'r', 'e', 'a', 't', 'i', 'o', 'n', '_', 't', 'i', 'm', 'e']

/-- Map lookup in the decoded tag map. -/
def lookupTag (k : List Char) : List (List Char × TagValue) → Option TagValue
  | [] => none
  | (k', v) :: rest => if k' = k then some v else lookupTag k rest

/-- `VideoFragment.parseMetadata`: probe, require a `creation_time` tag,
require it to be a string, parse it; yields the codec and the timestamp. -/
def parseMetadata (probe : Probe) (name : List Char) :
    Option (List Char × Timestamp) :=
  match probe name with
  | none => none
  | some out =>
  match lookupTag creationTimeKey out.tags with
  | none => none
  | some (TagValue.nonstr) => none
  | some (TagValue.str s) =>
  match parseCreationTime s with
  | none => none
  | some t => some (out.codec, t)

/-! ## Fragments and name parsing -/

/-- `VideoFragment` (embedding the `Video` and `Metadata` structs). -/
structure VideoFragment where
  id : List Char
  codec : List Char
  creationTime : Option Timestamp
  /-- Go `int`; only ever `Atoi` of a two-digit capture (0..99), so `Nat`. -/
  index : Nat
  extension : List Char
  currentName : List Char
  newName : List Char
deriving DecidableEq

/-- `VideoFragment{CurrentName: name}`: zero values for all other fields. -/
def initFragment (name : List Char) : VideoFragment :=
  { id := [], codec := [], creationTime := none, index := 0,
    extension := [], currentName := name, newName := [] }

/-- `VideoFragment.parseRaw`: on a raw-pattern match set id (group 3),
index (group 2 via Atoi) and extension (group 4); the codec group is unused. -/
def parseRawF (f : VideoFragment) : Option VideoFragment :=
  match rawMatch f.currentName with
  | some [_, ix, idd, ext] =>
    match atoiNat ix with
    | some n => some { f with id := idd, index := n, extension := ext }
    | none => none
  | _ => none

/-- `VideoFragment.parseRenamed`: set id, index (via Atoi) and extension
from the named token positions; the date group is not stored. -/
def parseRenamedF (f : VideoFragment) : Option VideoFragment :=
  match renamedMatch f.currentName with
  | some [_, idd, ix, ext] =>
    match atoiNat ix with
    | some n => some { f with id := idd, index := n, extension := ext }
    | none => none
  | _ => none

/-- `VideoFragment.parseMerged`: set id (group 2) and extension (group 3);
the index field keeps its zero value. -/
def parseMergedF (f : VideoFragment) : Option VideoFragment :=
  match mergedMatch f.currentName with
  | some [_, idd, ext] => some { f with id := idd, extension := ext }
  | _ => none

/-- The name-parser loop of `VideoFragment.Parse`: renamed, then raw, then
merged, stopping at the first success. -/
def firstNameParse (f : VideoFragment) : Option VideoFragment :=
  match parseRenamedF f with
  | some g => some g
  | none =>
  match parseRawF f with
  | some g => some g
  | none => parseMergedF f

-- Equality of parse outcomes is decidable (used by the concrete scenarios).
deriving instance DecidableEq for Except

inductive ParseError where
  | unrecognizedName
  | metadataUnavailable
deriving DecidableEq

/-- The tail of `VideoFragment.Parse` after a name parser succeeded: probe
the metadata (propagating failure) and compute `NewName` with the renamed
layout from the formatted creation time, id, index and extension. -/
def metadataStage (probe : Probe) (f : VideoFragment) :
    Except ParseError VideoFragment :=
  match parseMetadata probe f.currentName with
  | none => Except.error ParseError.metadataUnavailable
  | some (codec, t) =>
    let g : VideoFragment := { f with codec := codec, creationTime := some t }
    Except.ok { g with
      newName := renamedName (creationTimeStringOpt g.creationTime)
        g.id g.index g.extension }

/-- `VideoFragment.Parse` on `VideoFragment{CurrentName: name}`. -/
def videoFragmentParse (probe : Probe) (name : List Char) :
    Except ParseError VideoFragment :=
  match firstNameParse (initFragment name) with
  | none => Except.error ParseError.unrecognizedName
  | some f => metadataStage probe f

/-! ## The aggregator -/

/-- `VideoWhole` (embedding `Video`): one logical recording. -/
structure VideoWhole where
  id : List Char
  codec : List Char
  creationTime : Option Timestamp
  fragments : List VideoFragment
  /-- Go `int`; starts at 0 and only ever raised to a fragment index. -/
  expected : Nat
  /-- Cached merged-output name; `[]` (Go `""`) while unset. -/
  name : List Char
deriving DecidableEq

/-- The shared map `VideoList` (recording id to recording). -/
def VideoList : Type := List Char → Option VideoWhole

def emptyVideoList : VideoList := fun _ => none

/-- The extension literal `mkv` hardcoded for the merged name in
`VideoList.Add`. -/
def mkvExt : List Char := ['m', 'k', 'v']

/-- First-wins choice between the recording's stored creation time and the
incoming fragment's (step 4 of `Add`): an already-present recording time is
kept and imposed on the fragment, otherwise the fragment's time is adopted. -/
def ctFirst : Option Timestamp → Option Timestamp → Option Timestamp
  | some t, _ => some t
  | none, b => b

/-- Step 3 of `Add`: the recording stored under the fragment's id, or a
fresh one seeded from the fragment's `Video` (id, codec, creation time)
with no fragments, zero expected count and unset name. -/
def recordOf (f : VideoFragment) (o : Option VideoWhole) : VideoWhole :=
  match o with
  | some r => r
  | none =>
    { id := f.id, codec := f.codec, creationTime := f.creationTime,
      fragments := [], expected := 0, name := [] }

/-- The critical section of `VideoList.Add`, folding one parsed fragment
into the recording stored under its id.  Field by field, in the order the
Go code mutates `merged` in place: the reconciled creation time goes to the
recording and to the appended fragment; `Expected` is raised to the
fragment's index when larger; `Name`, when still unset, is rendered from
the recording's (just reconciled) creation time and id with the hardcoded
`mkv` extension. -/
def absorbFragment (f : VideoFragment) (o : Option VideoWhole) : VideoWhole :=
  let r0 : VideoWhole := recordOf f o
  let ct := ctFirst r0.creationTime f.creationTime
  let fr : VideoFragment := { f with creationTime := ct }
  { id := r0.id, codec := r0.codec, creationTime := ct,
    fragments := r0.fragments ++ [fr],
    expected := if fr.index > r0.expected then fr.index else r0.expected,
    name :=
      if r0.name = [] then mergedName (creationTimeStringOpt ct) r0.id mkvExt
      else r0.name }

/-- `VideoList.Add`: parse the entry (propagating the error before any
shared-state access), then fold the fragment into the map under its id. -/
def videoListAdd (probe : Probe) (vl : VideoList) (name : List Char) :
    Except ParseError VideoList :=
  match videoFragmentParse probe name with
  | Except.error e => Except.error e
  | Except.ok f =>
    Except.ok (fun k => if k = f.id then some (absorbFragment f (vl f.id)) else vl k)

/-- One directory entry of `VideoList.Parse`: on error the entry is logged
and the shared map is left as it was. -/
def addStep (probe : Probe) (vl : VideoList) (name : List Char) : VideoList :=
  match videoListAdd probe vl name with
  | Except.ok vl' => vl'
  | Except.error _ => vl

/-- `VideoList.Parse`'s aggregation: fold `Add` over the directory entries
(modelled sequentially; every interleaving is some order of the serialized
critical sections). -/
def addAll (probe : Probe) (vl : VideoList) : List (List Char) → VideoList
  | [] => vl
  | n :: ns => addAll probe (addStep probe vl n) ns

/-! ## The rename orchestrator -/

/-- `filepath.Join` of the input directory and a bare file name (the names
come from directory entries, so cleaning is the identity on them). -/
def joinPath (dir n : List Char) : List Char := dir ++ '/' :: n

/-- `VideoFragment.InputPath`. -/
def inputPath (dir : List Char) (f : VideoFragment) : List Char :=
  joinPath dir f.currentName

/-- `VideoFragment.NewPath`. -/
def newPath (dir : List Char) (f : VideoFragment) : List Char :=
  joinPath dir f.newName

/-- The decision the function built by `renameActionBuilder` takes for one
fragment: equal paths short-circuit to a log line with no action, otherwise
the action list (print, and in commit mode the filesystem rename) runs. -/
inductive RenameAction where
  | alreadyRenamed
  | perform (old new : List Char)
deriving DecidableEq

def renameDecision (old new : List Char) : RenameAction :=
  if old = new then RenameAction.alreadyRenamed else RenameAction.perform old new

/-- Whether a decision touches the filesystem. -/
def isPerform : RenameAction → Bool
  | RenameAction.alreadyRenamed => false
  | RenameAction.perform _ _ => true

/-- The `rename` loop over every fragment of every recording, as the list
of decisions taken. -/
def renamePlan (dir : List Char) (recordings : List VideoWhole) :
    List RenameAction :=
  recordings.flatMap fun r =>
    r.fragments.map fun f => renameDecision (inputPath dir f) (newPath dir f)

/-! ## Characterizations of the matching combinators -/

theorem takeLit_eq_some {c : Char} {s r : List Char} :
    takeLit c s = some r ↔ s = c :: r := by
  cases s with
  | nil => simp [takeLit]
  | cons x t =>
    simp only [takeLit, List.cons.injEq]
    by_cases h : x = c
    · subst h; simp
    · simp [h]

theorem takeLits_eq_some {pre s r : List Char} :
    takeLits pre s = some r ↔ s = pre ++ r := by
  induction pre generalizing s with
  | nil => simp [takeLits]
  | cons c cs ih =>
    simp only [takeLits]
    cases hL : takeLit c s with
    | none =>
      constructor
      · intro h; exact absurd h (by simp)
      · intro h
        exact absurd (takeLit_eq_some.mpr (by simpa using h)) (by simp [hL])
    | some t =>
      rw [takeLit_eq_some] at hL
      subst hL
      simp [ih]

theorem takeClass_eq_some {p : Char → Bool} {n : Nat} {s g r : List Char} :
    takeClass p n s = some (g, r) ↔ g.length = n ∧ g.all p ∧ s = g ++ r := by
  induction n generalizing s g r with
  | zero =>
    simp only [takeClass, Option.some.injEq, Prod.mk.injEq, List.length_eq_zero]
    constructor
    · rintro ⟨h1, h2⟩; subst h1; subst h2; simp
    · rintro ⟨h1, _, h3⟩; subst h1; exact ⟨rfl, by simpa using h3⟩
  | succ m ih =>
    cases s with
    | nil =>
      simp only [takeClass]
      constructor
      · intro h; exact absurd h (by simp)
      · rintro ⟨h1, _, h3⟩
        cases g with
        | nil => simp at h1
        | cons a b => simp at h3
    | cons c t =>
      simp only [takeClass]
      by_cases hp : p c
      · simp only [hp, if_true, Option.map_eq_some']
        constructor
        · rintro ⟨⟨g', r'⟩, hg, he⟩
          obtain ⟨h1, h2, h3⟩ := ih.mp hg
          simp only [Prod.mk.injEq] at he
          obtain ⟨he1, he2⟩ := he
          subst he1; subst he2; subst h3
          simp [h1, h2, hp]
        · rintro ⟨h1, h2, h3⟩
          cases g with
          | nil => simp at h1
          | cons a g' =>
            simp only [List.cons_append, List.cons.injEq] at h3
            obtain ⟨ha, ht⟩ := h3
            subst ha
            simp only [List.all_cons, Bool.and_eq_true] at h2
            exact ⟨(g', r), ih.mpr ⟨by simpa using h1, h2.2, ht⟩, rfl⟩
      · rw [if_neg hp]
        constructor
        · intro h; exact absurd h (by simp)
        · rintro ⟨h1, h2, h3⟩
          cases g with
          | nil => simp at h1
          | cons a g' =>
            simp only [List.cons_append, List.cons.injEq] at h3
            simp only [List.all_cons, Bool.and_eq_true] at h2
            rw [h3.1] at hp
            simp [h2.1] at hp

theorem takeDot_eq_some {s r : List Char} {c : Char} :
    takeDot s = some (c, r) ↔ s = c :: r ∧ c ≠ '\n' := by
  cases s with
  | nil => simp [takeDot]
  | cons x t =>
    simp only [takeDot, List.cons.injEq]
    by_cases h : x = '\n'
    · subst h
      rw [if_neg (by simp)]
      constructor
      · intro h'; exact absurd h' (by simp)
      · rintro ⟨⟨h1, _⟩, h2⟩; exact absurd h1.symm h2
    · rw [if_pos (by simpa using h)]
      constructor
      · rintro h'
        simp only [Option.some.injEq, Prod.mk.injEq] at h'
        exact ⟨⟨h'.1, h'.2⟩, fun hc => h (h'.1.trans hc)⟩
      · rintro ⟨⟨h1, h2⟩, _⟩
        subst h1; subst h2; rfl

theorem takePlusToEnd_eq_some {p : Char → Bool} {s e : List Char} :
    takePlusToEnd p s = some e ↔ e = s ∧ s ≠ [] ∧ s.all p := by
  simp only [takePlusToEnd]
  by_cases h1 : s = []
  · simp [h1]
  · by_cases h2 : s.all p
    · rw [if_pos (by simp [h1, h2])]
      simp [h1, h2, eq_comm]
    · rw [if_neg (by simp [h1, h2])]
      simp [h2]

/-- Construction form: a class group consumes exactly itself off the front. -/
theorem takeClass_app {p : Char → Bool} {n : Nat} {g : List Char} (r : List Char)
    (h1 : g.length = n) (h2 : g.all p) : takeClass p n (g ++ r) = some (g, r) :=
  takeClass_eq_some.mpr ⟨h1, h2, rfl⟩

/-- Construction form: a literal segment consumes exactly itself. -/
theorem takeLits_app (pre r : List Char) : takeLits pre (pre ++ r) = some r :=
  takeLits_eq_some.mpr rfl

theorem takeDateGroup_eq_some {s g r : List Char} :
    takeDateGroup s = some (g, r) ↔
      ∃ y mo d h mi sec,
        g = y ++ '-' :: mo ++ '-' :: d ++ ' ' :: h ++ '_' :: mi ++ '_' :: sec ∧
        s = g ++ r ∧
        y.length = 4 ∧ y.all isDigitChar ∧
        mo.length = 2 ∧ mo.all isDigitChar ∧
        d.length = 2 ∧ d.all isDigitChar ∧
        h.length = 2 ∧ h.all isDigitChar ∧
        mi.length = 2 ∧ mi.all isDigitChar ∧
        sec.length = 2 ∧ sec.all isDigitChar := by
  simp only [takeDateGroup, Option.bind_eq_some, Option.map_eq_some',
    takeLit_eq_some, takeClass_eq_some, Prod.exists]
  constructor
  · rintro ⟨y, ry, ⟨hy1, hy2, hy3⟩, r1, h1, mo, rmo, ⟨hmo1, hmo2, hmo3⟩,
      r2, h2, d, rd, ⟨hd1, hd2, hd3⟩, r3, h3, hh, rh, ⟨hh1, hh2, hh3⟩,
      r4, h4, mi, rmi, ⟨hmi1, hmi2, hmi3⟩, r5, h5, sec, rsec,
      ⟨hsec1, hsec2, hsec3⟩, hout⟩
    simp only [Prod.mk.injEq] at hout
    obtain ⟨hg, hr⟩ := hout
    refine ⟨y, mo, d, hh, mi, sec, hg.symm, ?_, hy1, hy2, hmo1, hmo2,
      hd1, hd2, hh1, hh2, hmi1, hmi2, hsec1, hsec2⟩
    subst hr
    rw [hy3, h1, hmo3, h2, hd3, h3, hh3, h4, hmi3, h5, hsec3, ← hg]
    simp
  · rintro ⟨y, mo, d, h, mi, sec, hg, hs, hy1, hy2, hmo1, hmo2, hd1, hd2,
      hh1, hh2, hmi1, hmi2, hsec1, hsec2⟩
    subst hg; subst hs
    refine ⟨y, '-' :: (mo ++ '-' :: (d ++ ' ' :: (h ++ '_' :: (mi ++ '_' ::
      (sec ++ r))))), ⟨hy1, hy2, by simp⟩,
      mo ++ '-' :: (d ++ ' ' :: (h ++ '_' :: (mi ++ '_' :: (sec ++ r)))), rfl,
      mo, '-' :: (d ++ ' ' :: (h ++ '_' :: (mi ++ '_' :: (sec ++ r)))),
      ⟨hmo1, hmo2, by simp⟩,
      d ++ ' ' :: (h ++ '_' :: (mi ++ '_' :: (sec ++ r))), rfl,
      d, ' ' :: (h ++ '_' :: (mi ++ '_' :: (sec ++ r))), ⟨hd1, hd2, by simp⟩,
      h ++ '_' :: (mi ++ '_' :: (sec ++ r)), rfl,
      h, '_' :: (mi ++ '_' :: (sec ++ r)), ⟨hh1, hh2, by simp⟩,
      mi ++ '_' :: (sec ++ r), rfl,
      mi, '_' :: (sec ++ r), ⟨hmi1, hmi2, by simp⟩,
      sec ++ r, rfl, sec, r, ⟨hsec1, hsec2, rfl⟩, ?_⟩
    simp

/-- A captured date group extends to any continuation. -/
theorem takeDateGroup_append {s g r : List Char} (u : List Char)
    (h : takeDateGroup s = some (g, r)) :
    takeDateGroup (s ++ u) = some (g, r ++ u) := by
  obtain ⟨y, mo, d, hh, mi, sec, hg, hs, rest⟩ := takeDateGroup_eq_some.mp h
  exact takeDateGroup_eq_some.mpr ⟨y, mo, d, hh, mi, sec, hg,
    by rw [hs]; simp, rest⟩

theorem rawMatch_eq_some {s : List Char} {caps : List (List Char)} :
    rawMatch s = some caps ↔
      ∃ cd ix idd x ext,
        caps = [cd, ix, idd, ext] ∧
        s = 'G' :: (cd ++ ix ++ idd ++ x :: ext) ∧
        cd.length = 1 ∧ cd.all isCodecChar ∧
        ix.length = 2 ∧ ix.all isDigitChar ∧
        idd.length = 4 ∧ idd.all isDigitChar ∧
        x ≠ '\n' ∧ ext ≠ [] ∧ ext.all isAlnumChar := by
  simp only [rawMatch, Option.bind_eq_some, Option.map_eq_some',
    takeLit_eq_some, takeClass_eq_some, takeDot_eq_some, takePlusToEnd_eq_some,
    Prod.exists]
  constructor
  · rintro ⟨r, hr, ⟨cd, r2, ⟨hcd1, hcd2, hcd3⟩, ⟨ix, r3, ⟨hix1, hix2, hix3⟩,
      ⟨idd, r4, ⟨hidd1, hidd2, hidd3⟩, ⟨x, r5, ⟨hx1, hx2⟩,
      ⟨ext, ⟨he1, he2, he3⟩, hcaps⟩⟩⟩⟩⟩⟩
    subst he1
    exact ⟨cd, ix, idd, x, _, hcaps.symm,
      by rw [hr, hcd3, hix3, hidd3, hx1]; simp,
      hcd1, hcd2, hix1, hix2, hidd1, hidd2, hx2, he2, he3⟩
  · rintro ⟨cd, ix, idd, x, ext, hcaps, hs, hcd1, hcd2, hix1, hix2, hidd1,
      hidd2, hx, he1, he2⟩
    exact ⟨cd ++ ix ++ idd ++ x :: ext, hs, cd, ix ++ idd ++ x :: ext,
      ⟨hcd1, hcd2, by simp⟩, ix, idd ++ x :: ext, ⟨hix1, hix2, by simp⟩,
      idd, x :: ext, ⟨hidd1, hidd2, by simp⟩, x, ext, ⟨rfl, hx⟩,
      ext, ⟨rfl, he1, he2⟩, hcaps.symm⟩

/-! ## Rendering and the round trip -/

theorem isDigitChar_toNat {c : Char} (h : isDigitChar c = true) :
    48 ≤ c.toNat ∧ c.toNat ≤ 57 := by
  simp only [isDigitChar, Bool.and_eq_true, decide_eq_true_eq] at h
  obtain ⟨h1, h2⟩ := h
  rw [Char.le_def] at h1 h2
  exact ⟨h1, h2⟩

theorem pad2_lt100 : ∀ n, n < 100 →
    pad2 n = [Char.ofNat (48 + n / 10), Char.ofNat (48 + n % 10)] := by decide

theorem pad2_two : ∀ n, n < 100 →
    (pad2 n).length = 2 ∧ (pad2 n).all isDigitChar = true := by decide

theorem digitsToNat_pair (a b : Char) :
    digitsToNat [a, b] = 10 * (a.toNat - 48) + (b.toNat - 48) := by
  simp [digitsToNat, List.foldl]

/-- `%02d` printing inverts `Atoi` on two-digit strings: this is why the
index captured by a matcher re-renders to the identical text. -/
theorem pad2_digitsToNat {a b : Char} (ha : isDigitChar a = true)
    (hb : isDigitChar b = true) : pad2 (digitsToNat [a, b]) = [a, b] := by
  obtain ⟨ha1, ha2⟩ := isDigitChar_toNat ha
  obtain ⟨hb1, hb2⟩ := isDigitChar_toNat hb
  rw [digitsToNat_pair]
  rw [pad2_lt100 _ (by omega)]
  have hdiv : (10 * (a.toNat - 48) + (b.toNat - 48)) / 10 = a.toNat - 48 := by
    omega
  have hmod : (10 * (a.toNat - 48) + (b.toNat - 48)) % 10 = b.toNat - 48 := by
    omega
  rw [hdiv, hmod, show 48 + (a.toNat - 48) = a.toNat by omega,
    show 48 + (b.toNat - 48) = b.toNat by omega,
    Char.ofNat_toNat, Char.ofNat_toNat]

theorem digitsToNat_lt100 {s : List Char} (h1 : s.length = 2)
    (h2 : s.all isDigitChar) : digitsToNat s < 100 := by
  match s, h1 with
  | [a, b], _ =>
    simp only [List.all_cons, List.all_nil, Bool.and_eq_true, and_true] at h2
    obtain ⟨ha1, ha2⟩ := isDigitChar_toNat h2.1
    obtain ⟨hb1, hb2⟩ := isDigitChar_toNat h2.2
    rw [digitsToNat_pair]
    omega

theorem pad2_digits {s : List Char} (h1 : s.length = 2)
    (h2 : s.all isDigitChar) : pad2 (digitsToNat s) = s := by
  match s, h1 with
  | [a, b], _ =>
    simp only [List.all_cons, List.all_nil, Bool.and_eq_true, and_true] at h2
    exact pad2_digitsToNat h2.1 h2.2

/-- Matching a rendered raw name recovers the rendered values. -/
theorem rawMatch_render {codec idd ext : List Char} {n : Nat}
    (hc1 : codec.length = 1) (hc2 : codec.all isCodecChar)
    (hn : n < 100)
    (hid1 : idd.length = 4) (hid2 : idd.all isDigitChar)
    (he1 : ext ≠ []) (he2 : ext.all isAlnumChar) :
    rawMatch (rawName codec n idd ext) = some [codec, pad2 n, idd, ext] :=
  rawMatch_eq_some.mpr ⟨codec, pad2 n, idd, '.', ext, rfl,
    by simp [rawName], hc1, hc2, (pad2_two n hn).1, (pad2_two n hn).2,
    hid1, hid2, by decide, he1, he2⟩

/-- Matching a rendered renamed name recovers the rendered values. -/
theorem renamedMatch_render {date idd ext : List Char} {n : Nat}
    (hd : takeDateGroup date = some (date, []))
    (hid1 : idd.length = 4) (hid2 : idd.all isDigitChar)
    (hn : n < 100)
    (he1 : ext ≠ []) (he2 : ext.all isAlnumChar) :
    renamedMatch (renamedName date idd n ext) = some [date, idd, pad2 n, ext] := by
  have hdg := takeDateGroup_append
    (litID ++ (idd ++ (litPart ++ (pad2 n ++ '.' :: ext)))) hd
  simp only [List.nil_append] at hdg
  have hshape : renamedName date idd n ext =
      litRecordingDate ++ (date ++ (litID ++ (idd ++ (litPart ++
        (pad2 n ++ '.' :: ext))))) := by
    simp [renamedName]
  rw [hshape]
  unfold renamedMatch
  rw [takeLits_app, Option.some_bind, hdg, Option.some_bind]
  rw [takeLits_app, Option.some_bind,
    takeClass_app _ hid1 hid2, Option.some_bind]
  rw [takeLits_app, Option.some_bind,
    takeClass_app _ (pad2_two n hn).1 (pad2_two n hn).2, Option.some_bind]
  rw [show takeDot ('.' :: ext) = some ('.', ext) from
    takeDot_eq_some.mpr ⟨rfl, by decide⟩, Option.some_bind]
  rw [show takePlusToEnd isAlnumChar ext = some ext from
    takePlusToEnd_eq_some.mpr ⟨rfl, he1, he2⟩]
  rfl

/-- Matching a rendered merged name recovers the rendered values. -/
theorem mergedMatch_render {date idd ext : List Char}
    (hd : takeDateGroup date = some (date, []))
    (hid1 : idd.length = 4) (hid2 : idd.all isDigitChar)
    (he1 : ext ≠ []) (he2 : ext.all isAlnumChar) :
    mergedMatch (mergedName date idd ext) = some [date, idd, ext] := by
  have hdg := takeDateGroup_append (litID ++ (idd ++ '.' :: ext)) hd
  simp only [List.nil_append] at hdg
  have hshape : mergedName date idd ext =
      litRecordingDate ++ (date ++ (litID ++ (idd ++ '.' :: ext))) := by
    simp [mergedName]
  rw [hshape]
  unfold mergedMatch
  rw [takeLits_app, Option.some_bind, hdg, Option.some_bind]
  rw [takeLits_app, Option.some_bind,
    takeClass_app _ hid1 hid2, Option.some_bind]
  rw [show takeDot ('.' :: ext) = some ('.', ext) from
    takeDot_eq_some.mpr ⟨rfl, by decide⟩, Option.some_bind]
  rw [show takePlusToEnd isAlnumChar ext = some ext from
    takePlusToEnd_eq_some.mpr ⟨rfl, he1, he2⟩]
  rfl

/-! ## Aggregation: normal forms and order-independence machinery -/

theorem ctFirst_self (a : Option Timestamp) : ctFirst a a = a := by
  cases a <;> rfl

theorem ctFirst_idem (a b : Option Timestamp) :
    ctFirst (ctFirst a b) b = ctFirst a b := by
  cases a <;> cases b <;> rfl

theorem mergedName_ne_nil (date idv ext : List Char) :
    mergedName date idv ext ≠ [] := by
  simp [mergedName, litRecordingDate]

theorem recordOf_some (f : VideoFragment) (r : VideoWhole) :
    recordOf f (some r) = r := rfl

theorem absorb_id (f : VideoFragment) (o : Option VideoWhole) :
    (absorbFragment f o).id = (recordOf f o).id := rfl

theorem absorb_codec (f : VideoFragment) (o : Option VideoWhole) :
    (absorbFragment f o).codec = (recordOf f o).codec := rfl

theorem absorb_ct (f : VideoFragment) (o : Option VideoWhole) :
    (absorbFragment f o).creationTime =
      ctFirst (recordOf f o).creationTime f.creationTime := rfl

theorem absorb_fragments (f : VideoFragment) (o : Option VideoWhole) :
    (absorbFragment f o).fragments = (recordOf f o).fragments ++
      [{ f with creationTime :=
          ctFirst (recordOf f o).creationTime f.creationTime }] := rfl

theorem absorb_expected (f : VideoFragment) (o : Option VideoWhole) :
    (absorbFragment f o).expected =
      if f.index > (recordOf f o).expected then f.index
      else (recordOf f o).expected := rfl

theorem absorb_name (f : VideoFragment) (o : Option VideoWhole) :
    (absorbFragment f o).name =
      if (recordOf f o).name = [] then
        mergedName
          (creationTimeStringOpt
            (ctFirst (recordOf f o).creationTime f.creationTime))
          (recordOf f o).id mkvExt
      else (recordOf f o).name := rfl

/-- The per-recording state C2 compares: id, creation time, expected count,
merged name, and the fragment list up to order. -/
def wholeEquiv (r r' : VideoWhole) : Prop :=
  r.id = r'.id ∧ r.creationTime = r'.creationTime ∧
  r.expected = r'.expected ∧ r.name = r'.name ∧
  r.fragments.Perm r'.fragments

theorem wholeEquiv_refl (r : VideoWhole) : wholeEquiv r r :=
  ⟨rfl, rfl, rfl, rfl, List.Perm.refl _⟩

theorem wholeEquiv_trans {a b c : VideoWhole} (h1 : wholeEquiv a b)
    (h2 : wholeEquiv b c) : wholeEquiv a c :=
  ⟨h1.1.trans h2.1, h1.2.1.trans h2.2.1, h1.2.2.1.trans h2.2.2.1,
   h1.2.2.2.1.trans h2.2.2.2.1, h1.2.2.2.2.trans h2.2.2.2.2⟩

def optEquiv : Option VideoWhole → Option VideoWhole → Prop
  | none, none => True
  | some r, some r' => wholeEquiv r r'
  | _, _ => False

theorem optEquiv_refl (o : Option VideoWhole) : optEquiv o o := by
  cases o
  · trivial
  · exact wholeEquiv_refl _

theorem optEquiv_trans {a b c : Option VideoWhole} (h1 : optEquiv a b)
    (h2 : optEquiv b c) : optEquiv a c := by
  cases a <;> cases b <;> cases c <;> simp only [optEquiv] at h1 h2 ⊢ <;>
    first
    | trivial
    | exact wholeEquiv_trans h1 h2

/-- Final states C2 compares: the same recordings under every id, each in
the `wholeEquiv` sense. -/
def stateEquiv (s s' : VideoList) : Prop := ∀ k, optEquiv (s k) (s' k)

theorem stateEquiv_refl (s : VideoList) : stateEquiv s s :=
  fun k => optEquiv_refl (s k)

theorem stateEquiv_of_eq {s s' : VideoList} (h : s = s') : stateEquiv s s' := by
  subst h; exact stateEquiv_refl s

theorem stateEquiv_trans {a b c : VideoList} (h1 : stateEquiv a b)
    (h2 : stateEquiv b c) : stateEquiv a c :=
  fun k => optEquiv_trans (h1 k) (h2 k)

theorem iteMax_comm (a b e : Nat) :
    (if b > (if a > e then a else e) then b else (if a > e then a else e)) =
    (if a > (if b > e then b else e) then a else (if b > e then b else e)) := by
  split_ifs <;> omega

/-- Absorbing one fragment respects recording equivalence. -/
theorem absorb_congr (f : VideoFragment) {r r' : VideoWhole}
    (h : wholeEquiv r r') :
    wholeEquiv (absorbFragment f (some r)) (absorbFragment f (some r')) := by
  obtain ⟨h1, h2, h3, h4, h5⟩ := h
  refine ⟨?_, ?_, ?_, ?_, ?_⟩
  · simp only [absorb_id, recordOf_some, h1]
  · simp only [absorb_ct, recordOf_some, h2]
  · simp only [absorb_expected, recordOf_some, h3]
  · simp only [absorb_name, recordOf_some, h1, h2, h3, h4]
  · simp only [absorb_fragments, recordOf_some, h2]
    exact h5.append_right _

/-- Absorbing two fragments with the same id and the same probed creation
time commutes, up to `wholeEquiv`. -/
theorem absorb_comm {f g : VideoFragment} (o : Option VideoWhole)
    (hid : f.id = g.id) (hct : f.creationTime = g.creationTime) :
    wholeEquiv (absorbFragment g (some (absorbFragment f o)))
      (absorbFragment f (some (absorbFragment g o))) := by
  have hctL : ctFirst (ctFirst (recordOf f o).creationTime f.creationTime)
      g.creationTime = ctFirst (recordOf f o).creationTime f.creationTime := by
    rw [← hct, ctFirst_idem]
  have hrec : (recordOf f o).creationTime = (recordOf g o).creationTime := by
    cases o with
    | some r => rfl
    | none => exact hct
  have hctR : ctFirst (ctFirst (recordOf g o).creationTime g.creationTime)
      f.creationTime = ctFirst (recordOf f o).creationTime f.creationTime := by
    rw [hct, ctFirst_idem, hrec]
  have hrecid : (recordOf f o).id = (recordOf g o).id := by
    cases o with
    | some r => rfl
    | none => exact hid
  have hrecexp : (recordOf f o).expected = (recordOf g o).expected := by
    cases o <;> rfl
  have hrecname : (recordOf f o).name = (recordOf g o).name := by
    cases o <;> rfl
  have hrecfrag : (recordOf f o).fragments = (recordOf g o).fragments := by
    cases o <;> rfl
  refine ⟨?_, ?_, ?_, ?_, ?_⟩
  · simp only [absorb_id, recordOf_some, hrecid]
  · simp only [absorb_ct, recordOf_some, hctL, hctR]
  · simp only [absorb_expected, recordOf_some, hrecexp, iteMax_comm]
  · simp only [absorb_name, recordOf_some, absorb_ct, absorb_id, hctL, hctR,
      hrecid, hrecexp, hrecname]
    by_cases hname : (recordOf g o).name = []
    · rw [if_pos hname, if_pos hname, if_neg (mergedName_ne_nil _ _ _),
        if_neg (mergedName_ne_nil _ _ _), hrec, hct]
    · rw [if_neg hname, if_neg hname, if_neg hname, if_neg hname]
  · simp only [absorb_fragments, absorb_ct, recordOf_some, hctL, hctR,
      hrecfrag, List.append_assoc, List.singleton_append]
    rw [show ctFirst (recordOf g o).creationTime g.creationTime =
      ctFirst (recordOf f o).creationTime f.creationTime by rw [hrec, hct]]
    exact List.Perm.append_left _ (List.Perm.swap _ _ [])

theorem addStep_ok {probe : Probe} {name : List Char} {f : VideoFragment}
    (h : videoFragmentParse probe name = Except.ok f) (vl : VideoList) :
    addStep probe vl name =
      fun k => if k = f.id then some (absorbFragment f (vl f.id)) else vl k := by
  simp [addStep, videoListAdd, h]

theorem addStep_err {probe : Probe} {name : List Char} {e : ParseError}
    (h : videoFragmentParse probe name = Except.error e) (vl : VideoList) :
    addStep probe vl name = vl := by
  simp [addStep, videoListAdd, h]

theorem addStep_ok_apply {probe : Probe} {name : List Char} {f : VideoFragment}
    (h : videoFragmentParse probe name = Except.ok f) (vl : VideoList)
    (k : List Char) :
    addStep probe vl name k =
      if k = f.id then some (absorbFragment f (vl f.id)) else vl k := by
  rw [addStep_ok h]

theorem addStep_congr (probe : Probe) (name : List Char) {vl vl' : VideoList}
    (h : stateEquiv vl vl') :
    stateEquiv (addStep probe vl name) (addStep probe vl' name) := by
  cases hp : videoFragmentParse probe name with
  | error e => rw [addStep_err hp, addStep_err hp]; exact h
  | ok f =>
    rw [addStep_ok hp, addStep_ok hp]
    intro k
    by_cases hk : k = f.id
    · simp only [hk, if_pos rfl]
      have hfid := h f.id
      cases hv : vl f.id with
      | none =>
        cases hv' : vl' f.id with
        | none => exact wholeEquiv_refl _
        | some r' => rw [hv, hv'] at hfid; exact absurd hfid (by simp [optEquiv])
      | some r =>
        cases hv' : vl' f.id with
        | none => rw [hv, hv'] at hfid; exact absurd hfid (by simp [optEquiv])
        | some r' =>
          rw [hv, hv'] at hfid
          exact absorb_congr f hfid
    · simp only [if_neg hk]
      exact h k

theorem addStep_swap (probe : Probe) (m n : List Char) (vl : VideoList)
    (hc : ∀ f g, videoFragmentParse probe m = Except.ok f →
      videoFragmentParse probe n = Except.ok g → f.id = g.id →
      f.creationTime = g.creationTime) :
    stateEquiv (addStep probe (addStep probe vl m) n)
      (addStep probe (addStep probe vl n) m) := by
  cases hm : videoFragmentParse probe m with
  | error e => simp only [addStep_err hm]; exact stateEquiv_refl _
  | ok f =>
    cases hn : videoFragmentParse probe n with
    | error e => simp only [addStep_err hn]; exact stateEquiv_refl _
    | ok g =>
      intro k
      simp only [addStep_ok_apply hm, addStep_ok_apply hn]
      by_cases hfg : f.id = g.id
      · by_cases hk : k = g.id
        · simp only [hk, hfg]
          exact absorb_comm (vl g.id) hfg (hc f g hm hn hfg)
        · have hkf : ¬k = f.id := fun hck => hk (hck.trans hfg)
          simp only [if_neg hk, if_neg hkf]
          exact optEquiv_refl _
      · have hgf : ¬g.id = f.id := fun hh => hfg hh.symm
        by_cases hk1 : k = f.id
        · have hk2 : ¬k = g.id := fun hck => hfg (hk1.symm.trans hck)
          simp only [if_neg hk2, if_pos hk1, if_neg hfg, if_neg hgf]
          exact optEquiv_refl _
        · by_cases hk2 : k = g.id
          · simp only [if_pos hk2, if_neg hk1, if_neg hfg, if_neg hgf]
            exact optEquiv_refl _
          · simp only [if_neg hk1, if_neg hk2]
            exact optEquiv_refl _

theorem addAll_congr (probe : Probe) (ns : List (List Char))
    {vl vl' : VideoList} (h : stateEquiv vl vl') :
    stateEquiv (addAll probe vl ns) (addAll probe vl' ns) := by
  induction ns generalizing vl vl' with
  | nil => exact h
  | cons n t ih =>
    simp only [addAll]
    exact ih (addStep_congr probe n h)

/-- The cross-fragment compatibility C2 needs: any two entries of the batch
that parse to fragments of the same recording id probed the same creation
time. -/
def addsCommute (probe : Probe) (l : List (List Char)) : Prop :=
  ∀ m ∈ l, ∀ n ∈ l, ∀ f g, videoFragmentParse probe m = Except.ok f →
    videoFragmentParse probe n = Except.ok g → f.id = g.id →
    f.creationTime = g.creationTime

theorem addsCommute_tail {probe : Probe} {x : List Char} {l : List (List Char)}
    (h : addsCommute probe (x :: l)) : addsCommute probe l :=
  fun m hm n hn => h m (List.mem_cons_of_mem _ hm) n (List.mem_cons_of_mem _ hn)

theorem addsCommute_perm {probe : Probe} {l l' : List (List Char)}
    (hp : l.Perm l') (h : addsCommute probe l) : addsCommute probe l' :=
  fun m hm n hn => h m (hp.mem_iff.mpr hm) n (hp.mem_iff.mpr hn)

theorem addAll_perm_aux (probe : Probe) {l l' : List (List Char)}
    (hp : l.Perm l') : addsCommute probe l → ∀ vl vl', stateEquiv vl vl' →
    stateEquiv (addAll probe vl l) (addAll probe vl' l') := by
  induction hp with
  | nil => intro _ vl vl' h; exact h
  | cons x hp ih =>
    intro hc vl vl' h
    simp only [addAll]
    exact ih (addsCommute_tail hc) _ _ (addStep_congr probe x h)
  | swap x y t =>
    intro hc vl vl' h
    simp only [addAll]
    apply addAll_congr probe t
    refine stateEquiv_trans (addStep_congr probe x (addStep_congr probe y h)) ?_
    exact addStep_swap probe y x vl'
      (fun fy fx hy hx =>
        hc y (List.mem_cons_self _ _) x (List.mem_cons_of_mem _
          (List.mem_cons_self _ _)) fy fx hy hx)
  | trans hp1 hp2 ih1 ih2 =>
    intro hc vl vl' h
    exact stateEquiv_trans (ih1 hc vl vl (stateEquiv_refl vl))
      (ih2 (addsCommute_perm hp1 hc) vl vl' h)

/-! ## Parse-result facts and the aggregator invariant -/

theorem videoFragmentParse_none {probe : Probe} {name : List Char}
    (hfp : firstNameParse (initFragment name) = none) :
    videoFragmentParse probe name = Except.error ParseError.unrecognizedName := by
  unfold videoFragmentParse
  rw [hfp]

theorem videoFragmentParse_some {probe : Probe} {name : List Char}
    {f0 : VideoFragment} (hfp : firstNameParse (initFragment name) = some f0) :
    videoFragmentParse probe name = metadataStage probe f0 := by
  unfold videoFragmentParse
  rw [hfp]

theorem metadataStage_none {probe : Probe} {f : VideoFragment}
    (hm : parseMetadata probe f.currentName = none) :
    metadataStage probe f = Except.error ParseError.metadataUnavailable := by
  unfold metadataStage
  rw [hm]

theorem metadataStage_some {probe : Probe} {f : VideoFragment}
    {codec : List Char} {t : Timestamp}
    (hm : parseMetadata probe f.currentName = some (codec, t)) :
    metadataStage probe f = Except.ok
      { f with
          codec := codec,
          creationTime := some t,
          newName := renamedName (creationTimeString t) f.id f.index f.extension } := by
  unfold metadataStage
  rw [hm]
  rfl

theorem parse_ok_isSome {probe : Probe} {name : List Char} {f : VideoFragment}
    (h : videoFragmentParse probe name = Except.ok f) :
    f.creationTime.isSome := by
  cases hfp : firstNameParse (initFragment name) with
  | none =>
    rw [videoFragmentParse_none hfp] at h
    exact absurd h (by simp)
  | some f0 =>
    rw [videoFragmentParse_some hfp] at h
    cases hm : parseMetadata probe f0.currentName with
    | none =>
      rw [metadataStage_none hm] at h
      exact absurd h (by simp)
    | some ct =>
      obtain ⟨codec, t⟩ := ct
      rw [metadataStage_some hm] at h
      simp only [Except.ok.injEq] at h
      subst h
      rfl

theorem ctFirst_isSome {a : Option Timestamp} (b : Option Timestamp)
    (h : a.isSome) : ctFirst a b = a := by
  cases a with
  | none => simp at h
  | some t => rfl

/-- The C5 invariant, strengthened for the induction: every stored
recording sits under its own id, has a present creation time, a non-empty
fragment list, and fragments carrying its id and timestamp. -/
def listInv (vl : VideoList) : Prop :=
  ∀ k r, vl k = some r → r.id = k ∧ r.creationTime.isSome ∧
    r.fragments ≠ [] ∧
    ∀ f ∈ r.fragments, f.id = r.id ∧ f.creationTime = r.creationTime

theorem listInv_empty : listInv emptyVideoList := by
  intro k r h
  exact absurd h (by simp [emptyVideoList])

theorem listInv_addStep (probe : Probe) (name : List Char) {vl : VideoList}
    (h : listInv vl) : listInv (addStep probe vl name) := by
  cases hp : videoFragmentParse probe name with
  | error e => rw [addStep_err hp]; exact h
  | ok f =>
    intro k r hr
    rw [addStep_ok_apply hp vl k] at hr
    by_cases hk : k = f.id
    · rw [if_pos hk] at hr
      have hfr : r = absorbFragment f (vl f.id) := by
        injection hr.symm
      subst hfr
      cases hv : vl f.id with
      | none =>
        refine ⟨?_, ?_, ?_, ?_⟩
        · rw [absorb_id, hk]; rfl
        · rw [absorb_ct]
          simp only [recordOf, ctFirst_self]
          exact parse_ok_isSome hp
        · rw [absorb_fragments]; simp
        · intro fr hfr
          rw [absorb_fragments] at hfr
          simp only [recordOf, ctFirst_self, List.nil_append,
            List.mem_singleton] at hfr
          subst hfr
          constructor
          · rw [absorb_id]; rfl
          · rw [absorb_ct]; simp only [recordOf, ctFirst_self]
      | some rr =>
        obtain ⟨hid, hsome, hne, hmem⟩ := h f.id rr hv
        have hcf : ctFirst rr.creationTime f.creationTime = rr.creationTime :=
          ctFirst_isSome _ hsome
        refine ⟨?_, ?_, ?_, ?_⟩
        · rw [absorb_id, recordOf_some, hid, hk]
        · rw [absorb_ct, recordOf_some, hcf]; exact hsome
        · rw [absorb_fragments]; simp
        · intro fr hfr
          rw [absorb_fragments, recordOf_some] at hfr
          rw [absorb_id, absorb_ct, recordOf_some, hcf]
          rcases List.mem_append.mp hfr with hold | hnew
          · obtain ⟨h1, h2⟩ := hmem fr hold
            exact ⟨h1, h2⟩
          · rw [List.mem_singleton] at hnew
            subst hnew
            rw [hcf]
            exact ⟨hid.symm, rfl⟩
    · rw [if_neg hk] at hr
      exact h k r hr

theorem listInv_addAll (probe : Probe) (names : List (List Char))
    {vl : VideoList} (h : listInv vl) : listInv (addAll probe vl names) := by
  induction names generalizing vl with
  | nil => exact h
  | cons n t ih =>
    simp only [addAll]
    exact ih (listInv_addStep probe n h)

/-! ## Concrete scenario data -/

/-- The first raw filename of the C1 scenario. -/
def c1Name1 : List Char :=
  ['G', 'X', '0', '1', '0', '0', '4', '2', '.', 'm', 'p', '4']

/-- The second raw filename of the C1 scenario. -/
def c1Name2 : List Char :=
  ['G', 'X', '0', '2', '0', '0', '4', '2', '.', 'm', 'p', '4']

/-- The codec name the scenario probes report. -/
def h264Codec : List Char :=
  ['h', '2', '6', '4']

/-- The probed `creation_time` tag of the C1 scenario. -/
def c1TimeTag : List Char :=
  ['2', '0', '2', '3', '-', '0', '6', '-', '0', '1', 'T', '1', '0', ':', 
   '0', '0', ':', '0', '0', '.', '5', 'Z']

/-- The recording id of the C1 scenario. -/
def c1Id : List Char :=
  ['0', '0', '4', '2']

/-- The formatted creation time of the C1 scenario. -/
def c1DateStr : List Char :=
  ['2', '0', '2', '3', '-', '0', '6', '-', '0', '1', ' ', '1', '0', '_', 
   '0', '0', '_', '0', '0']

/-- Extension `mp4`. -/
def mp4Ext : List Char :=
  ['m', 'p', '4']

/-- The canonical per-fragment name claim C1 asserts for part 1. -/
def c1Part01 : List Char :=
  ['R', 'e', 'c', 'o', 'r', 'd', 'i', 'n', 'g', ' ', '_', '-', '_', ' ', 
   'D', 'a', 't', 'e', ' ', '2', '0', '2', '3', '-', '0', '6', '-', '0', 
   '1', ' ', '1', '0', '_', '0', '0', '_', '0', '0', ' ', '_', '-', '_', 
   ' ', 'I', 'D', ' ', '0', '0', '4', '2', ' ', '_', '-', '_', ' ', 'P', 
   'a', 'r', 't', ' ', '0', '1', '.', 'm', 'p', '4']

/-- The canonical per-fragment name claim C1 asserts for part 2. -/
def c1Part02 : List Char :=
  ['R', 'e', 'c', 'o', 'r', 'd', 'i', 'n', 'g', ' ', '_', '-', '_', ' ', 
   'D', 'a', 't', 'e', ' ', '2', '0', '2', '3', '-', '0', '6', '-', '0', 
   '1', ' ', '1', '0', '_', '0', '0', '_', '0', '0', ' ', '_', '-', '_', 
   ' ', 'I', 'D', ' ', '0', '0', '4', '2', ' ', '_', '-', '_', ' ', 'P', 
   'a', 'r', 't', ' ', '0', '2', '.', 'm', 'p', '4']

/-- The merged name the code actually produces (hardcoded `mkv`). -/
def c1MergedMkv : List Char :=
  ['R', 'e', 'c', 'o', 'r', 'd', 'i', 'n', 'g', ' ', '_', '-', '_', ' ', 
   'D', 'a', 't', 'e', ' ', '2', '0', '2', '3', '-', '0', '6', '-', '0', 
   '1', ' ', '1', '0', '_', '0', '0', '_', '0', '0', ' ', '_', '-', '_', 
   ' ', 'I', 'D', ' ', '0', '0', '4', '2', '.', 'm', 'k', 'v']

/-- The merged name claim C1 asserts (`mp4`). -/
def c1MergedMp4Claim : List Char :=
  ['R', 'e', 'c', 'o', 'r', 'd', 'i', 'n', 'g', ' ', '_', '-', '_', ' ', 
   'D', 'a', 't', 'e', ' ', '2', '0', '2', '3', '-', '0', '6', '-', '0', 
   '1', ' ', '1', '0', '_', '0', '0', '_', '0', '0', ' ', '_', '-', '_', 
   ' ', 'I', 'D', ' ', '0', '0', '4', '2', '.', 'm', 'p', '4']

/-- A different probed `creation_time`, for the C2 counterexample. -/
def c2TimeTag : List Char :=
  ['2', '0', '2', '3', '-', '0', '6', '-', '0', '1', 'T', '1', '1', ':', 
   '0', '0', ':', '0', '0', '.', '5', 'Z']

/-- A dotless filename the raw pattern accepts (the template dot is a wildcard). -/
def c4Name : List Char :=
  ['G', 'X', '0', '1', '0', '0', '4', '2', 'x', 'm', 'p', '4']


/-- The C1 scenario's probe: every entry reports codec `h264` and creation
time `2023-06-01T10:00:00.5Z`. -/
def c1Probe : Probe :=
  fun _ => some ⟨h264Codec, [(creationTimeKey, TagValue.str c1TimeTag)]⟩

/-- The C1 scenario's directory entries. -/
def c1Names : List (List Char) := [c1Name1, c1Name2]

/-- The C1 scenario's entries in the opposite order. -/
def c1NamesRev : List (List Char) := [c1Name2, c1Name1]

/-- The timestamp `2023-06-01T10:00:00.5Z` parses to. -/
def c1Ts : Timestamp :=
  { year := 2023, month := 6, day := 1, hour := 10, minute := 0, second := 0,
    nanos := 500000000 }

/-- The fragment the C1 scenario's first entry parses to. -/
def c1Frag1 : VideoFragment :=
  { id := c1Id, codec := h264Codec, creationTime := some c1Ts, index := 1,
    extension := mp4Ext, currentName := c1Name1, newName := c1Part01 }

/-- The fragment the C1 scenario's second entry parses to. -/
def c1Frag2 : VideoFragment :=
  { id := c1Id, codec := h264Codec, creationTime := some c1Ts, index := 2,
    extension := mp4Ext, currentName := c1Name2, newName := c1Part02 }

/-- The single recording the C1 scenario aggregates to. -/
def c1Rec : VideoWhole :=
  { id := c1Id, codec := h264Codec, creationTime := some c1Ts,
    fragments := [c1Frag1, c1Frag2], expected := 2, name := c1MergedMkv }

/-- The C1 scenario's whole final aggregate: exactly one recording, under
id `0042`. -/
def c1Final : VideoList := fun k => if k = c1Id then some c1Rec else none

/-- A probe whose two scenario files carry different creation times, for
the C2 counterexample. -/
def c2Probe : Probe := fun n =>
  if n = c1Name1 then some ⟨h264Codec, [(creationTimeKey, TagValue.str c1TimeTag)]⟩
  else some ⟨h264Codec, [(creationTimeKey, TagValue.str c2TimeTag)]⟩

/-- A probe that always fails, for the C6 witness. -/
def failProbe : Probe := fun _ => none

/-! ## Further helper lemmas for the claims -/

theorem videoListAdd_err {probe : Probe} {name : List Char} {e : ParseError}
    (h : videoFragmentParse probe name = Except.error e) (vl : VideoList) :
    videoListAdd probe vl name = Except.error e := by
  unfold videoListAdd
  rw [h]

/-- Entries none of whose parsed fragments carry id `k` leave the slot `k`
untouched. -/
theorem addAll_unaffected (probe : Probe) (ns : List (List Char))
    (vl : VideoList) (k : List Char)
    (h : ∀ n ∈ ns, ∀ f, videoFragmentParse probe n = Except.ok f → k ≠ f.id) :
    addAll probe vl ns k = vl k := by
  induction ns generalizing vl with
  | nil => rfl
  | cons n t ih =>
    simp only [addAll]
    rw [ih _ (fun m hm => h m (List.mem_cons_of_mem _ hm))]
    cases hp : videoFragmentParse probe n with
    | error e => rw [addStep_err hp]
    | ok f =>
      rw [addStep_ok_apply hp vl k,
        if_neg (h n (List.mem_cons_self _ _) f hp)]

theorem parseRawF_eq {f g : VideoFragment} (h : parseRawF f = some g) :
    ∃ cd ix idd ext n, rawMatch f.currentName = some [cd, ix, idd, ext] ∧
      atoiNat ix = some n ∧
      g = { f with id := idd, index := n, extension := ext } := by
  unfold parseRawF at h
  cases hm : rawMatch f.currentName with
  | none => rw [hm] at h; exact absurd h (by simp)
  | some caps =>
    rw [hm] at h
    match caps, h with
    | [cd, ix, idd, ext], h =>
      dsimp only at h
      cases ha : atoiNat ix with
      | none => rw [ha] at h; exact absurd h (by simp)
      | some n =>
        rw [ha] at h
        simp only [Option.some.injEq] at h
        exact ⟨cd, ix, idd, ext, n, rfl, ha, h.symm⟩

theorem parseRenamedF_eq {f g : VideoFragment} (h : parseRenamedF f = some g) :
    ∃ date idd ix ext n, renamedMatch f.currentName = some [date, idd, ix, ext] ∧
      atoiNat ix = some n ∧
      g = { f with id := idd, index := n, extension := ext } := by
  unfold parseRenamedF at h
  cases hm : renamedMatch f.currentName with
  | none => rw [hm] at h; exact absurd h (by simp)
  | some caps =>
    rw [hm] at h
    match caps, h with
    | [date, idd, ix, ext], h =>
      dsimp only at h
      cases ha : atoiNat ix with
      | none => rw [ha] at h; exact absurd h (by simp)
      | some n =>
        rw [ha] at h
        simp only [Option.some.injEq] at h
        exact ⟨date, idd, ix, ext, n, rfl, ha, h.symm⟩

theorem parseMergedF_eq {f g : VideoFragment} (h : parseMergedF f = some g) :
    ∃ date idd ext, mergedMatch f.currentName = some [date, idd, ext] ∧
      g = { f with id := idd, extension := ext } := by
  unfold parseMergedF at h
  cases hm : mergedMatch f.currentName with
  | none => rw [hm] at h; exact absurd h (by simp)
  | some caps =>
    rw [hm] at h
    match caps, h with
    | [date, idd, ext], h =>
      dsimp only at h
      simp only [Option.some.injEq] at h
      exact ⟨date, idd, ext, rfl, h.symm⟩

theorem firstNameParse_currentName {name : List Char} {f : VideoFragment}
    (h : firstNameParse (initFragment name) = some f) : f.currentName = name := by
  unfold firstNameParse at h
  cases h1 : parseRenamedF (initFragment name) with
  | some g =>
    rw [h1] at h
    simp only [Option.some.injEq] at h
    subst h
    obtain ⟨_, _, _, _, _, _, _, hg⟩ := parseRenamedF_eq h1
    rw [hg]
    rfl
  | none =>
    rw [h1] at h
    cases h2 : parseRawF (initFragment name) with
    | some g =>
      rw [h2] at h
      simp only [Option.some.injEq] at h
      subst h
      obtain ⟨_, _, _, _, _, _, _, hg⟩ := parseRawF_eq h2
      rw [hg]
      rfl
    | none =>
      rw [h2] at h
      obtain ⟨_, _, _, _, hg⟩ := parseMergedF_eq h
      rw [hg]
      rfl

/-! ## The claims -/

/-- Claim C1 (counterexample): in the scenario of two raw files probing to
`2023-06-01T10:00:00.5Z`/`h264`, the aggregated recording's merged output
name is NOT the claimed `Recording _-_ Date 2023-06-01 10_00_00 _-_ ID
0042.mp4`: `Add` hardcodes the `mkv` extension. -/
theorem c1_merged_name_counterexample :
    ((addAll c1Probe emptyVideoList c1Names) c1Id).map VideoWhole.name ≠
      some c1MergedMp4Claim := by decide

/-- Claim C1 (amended): the scenario yields exactly one recording, under id
`0042`, with `expectedCount = 2`, the two claimed canonical fragment names,
and merged name `Recording _-_ Date 2023-06-01 10_00_00 _-_ ID 0042.mkv`
(the code's hardcoded `mkv` extension, not the claimed `mp4`). -/
theorem c1_scenario :
    addAll c1Probe emptyVideoList c1Names = c1Final ∧
    c1Rec.id = c1Id ∧ c1Rec.expected = 2 ∧
    c1Rec.fragments.map VideoFragment.newName = [c1Part01, c1Part02] ∧
    c1Rec.name = c1MergedMkv := by
  refine ⟨?_, by decide, by decide, by decide, by decide⟩
  funext k
  by_cases hk : k = c1Id
  · subst hk
    show addAll c1Probe emptyVideoList c1Names c1Id = c1Final c1Id
    decide
  · have h1 : videoFragmentParse c1Probe c1Name1 = Except.ok c1Frag1 := by
      decide
    have h2 : videoFragmentParse c1Probe c1Name2 = Except.ok c1Frag2 := by
      decide
    have hnone : addAll c1Probe emptyVideoList c1Names k = emptyVideoList k := by
      apply addAll_unaffected
      intro n hn f hf
      rcases (by simpa [c1Names] using hn : n = c1Name1 ∨ n = c1Name2) with
        rfl | rfl
      · rw [h1] at hf
        have : f = c1Frag1 := by injection hf.symm
        subst this
        exact hk
      · rw [h2] at hf
        have : f = c1Frag2 := by injection hf.symm
        subst this
        exact hk
    rw [hnone]
    show none = c1Final k
    rw [c1Final, if_neg hk]

/-- Claim C2 (counterexample): with a fixed multiset of two parseable raw
filenames of the same recording whose probes both succeed (but report
different creation times), the two add orders give the recording different
final `creationTime`s: the first-seen fragment's probed value wins. -/
theorem c2_order_counterexample :
    c1Names.Perm c1NamesRev ∧
    ((addAll c2Probe emptyVideoList c1Names) c1Id).map
        VideoWhole.creationTime ≠
    ((addAll c2Probe emptyVideoList c1NamesRev) c1Id).map
        VideoWhole.creationTime := by
  constructor
  · exact List.Perm.swap c1Name2 c1Name1 []
  · decide

/-- Claim C2 (amended): when any two entries of the batch that parse to
fragments with the same recording id also probed the same creation time
(the spec's own assumption that fragments of one recording share one true
creation time), running the adds in any order yields, for every recording
id, the same id, creation time, expected count and merged name, and the
same fragments up to order. -/
theorem c2_add_commutes (probe : Probe) (l l' : List (List Char))
    (hp : l.Perm l') (hc : addsCommute probe l) :
    stateEquiv (addAll probe emptyVideoList l)
      (addAll probe emptyVideoList l') :=
  addAll_perm_aux probe hp hc _ _ (stateEquiv_refl _)

/-- Claim C2, witness: the C1 scenario's two entries, in both orders. -/
theorem c2_add_commutes_witness :
    stateEquiv (addAll c1Probe emptyVideoList c1Names)
      (addAll c1Probe emptyVideoList c1NamesRev) := by
  have h1 : videoFragmentParse c1Probe c1Name1 = Except.ok c1Frag1 := by decide
  have h2 : videoFragmentParse c1Probe c1Name2 = Except.ok c1Frag2 := by decide
  refine c2_add_commutes c1Probe c1Names c1NamesRev
    (List.Perm.swap c1Name2 c1Name1 []) ?_
  intro m hm n hn f g hf hg _
  have hct : ∀ p ∈ c1Names, ∀ q, videoFragmentParse c1Probe p = Except.ok q →
      q.creationTime = some c1Ts := by
    intro p hp q hq
    rcases (by simpa [c1Names] using hp : p = c1Name1 ∨ p = c1Name2) with
      rfl | rfl
    · rw [h1] at hq
      have : q = c1Frag1 := by injection hq.symm
      subst this
      rfl
    · rw [h2] at hq
      have : q = c1Frag2 := by injection hq.symm
      subst this
      rfl
  rw [hct m hm f hf, hct n hn g hg]

/-- Claim C3: for each of the three predefined matchers, matching the
string produced by rendering a tuple of values valid for the matcher's
token grammars succeeds and recovers exactly the rendered values in token
order (the index value as its two-digit decimal form, which `Atoi` and
`%02d` translate back and forth losslessly). -/
theorem c3_render_match_roundtrip (date idd idx ext codec : List Char)
    (hd : takeDateGroup date = some (date, []))
    (hid1 : idd.length = 4) (hid2 : idd.all isDigitChar)
    (hix1 : idx.length = 2) (hix2 : idx.all isDigitChar)
    (he1 : ext ≠ []) (he2 : ext.all isAlnumChar)
    (hc1 : codec.length = 1) (hc2 : codec.all isCodecChar) :
    renamedMatch (renamedName date idd (digitsToNat idx) ext) =
      some [date, idd, idx, ext] ∧
    rawMatch (rawName codec (digitsToNat idx) idd ext) =
      some [codec, idx, idd, ext] ∧
    mergedMatch (mergedName date idd ext) = some [date, idd, ext] := by
  have hn : digitsToNat idx < 100 := digitsToNat_lt100 hix1 hix2
  have hpad : pad2 (digitsToNat idx) = idx := pad2_digits hix1 hix2
  refine ⟨?_, ?_, ?_⟩
  · have hr := renamedMatch_render hd hid1 hid2 hn he1 he2
    rw [hpad] at hr
    exact hr
  · have hr := rawMatch_render hc1 hc2 hn hid1 hid2 he1 he2
    rw [hpad] at hr
    exact hr
  · exact mergedMatch_render hd hid1 hid2 he1 he2

/-- Claim C3, witness: the concrete tuple (`2023-06-01 10_00_00`, `0042`,
`01`, `mp4`, codec `X`) round-trips through all three matchers. -/
theorem c3_roundtrip_witness :
    renamedMatch (renamedName c1DateStr c1Id (digitsToNat ['0', '1']) mp4Ext) =
      some [c1DateStr, c1Id, ['0', '1'], mp4Ext] ∧
    rawMatch (rawName ['X'] (digitsToNat ['0', '1']) c1Id mp4Ext) =
      some [['X'], ['0', '1'], c1Id, mp4Ext] ∧
    mergedMatch (mergedName c1DateStr c1Id mp4Ext) =
      some [c1DateStr, c1Id, mp4Ext] :=
  c3_render_match_roundtrip c1DateStr c1Id ['0', '1'] mp4Ext ['X']
    (by decide) (by decide) (by decide) (by decide) (by decide) (by decide)
    (by decide) (by decide) (by decide)

/-- The raw-name shape exactly as claim C4 words it: a LITERAL dot between
the four-digit id and the alphanumeric extension.  (Stated from the claim,
to be compared with what the compiled pattern accepts.) -/
def specRawShape (s : List Char) : Prop :=
  ∃ cd ix idd ext, s = 'G' :: (cd ++ ix ++ idd ++ '.' :: ext) ∧
    cd.length = 1 ∧ cd.all isCodecChar ∧ ix.length = 2 ∧ ix.all isDigitChar ∧
    idd.length = 4 ∧ idd.all isDigitChar ∧ ext ≠ [] ∧ ext.all isAlnumChar

/-- Claim C4 (counterexample): `GX010042xmp4` contains no dot at all, yet
the raw matcher accepts it — the template's `.` compiles to the regexp
wildcard, not a literal dot, so the claimed shape is not necessary for
acceptance. -/
theorem c4_dotless_accepted :
    (rawMatch c4Name).isSome = true ∧ ¬ specRawShape c4Name := by
  refine ⟨by decide, ?_⟩
  rintro ⟨cd, ix, idd, ext, hs, _⟩
  have hdot : '.' ∈ c4Name := by
    rw [hs]
    simp
  exact absurd hdot (by decide)

/-- Claim C4 (amended): the raw matcher accepts a string exactly when it is
`G`, a codec character `X` or `H`, two digits, four digits, then ANY single
character other than newline (the template's unescaped `.` is the pattern
wildcard), then a nonempty alphanumeric extension, with nothing before or
after. -/
theorem c4_raw_acceptance (s : List Char) :
    (rawMatch s).isSome = true ↔
      ∃ cd ix idd x ext, s = 'G' :: (cd ++ ix ++ idd ++ x :: ext) ∧
        cd.length = 1 ∧ cd.all isCodecChar ∧
        ix.length = 2 ∧ ix.all isDigitChar ∧
        idd.length = 4 ∧ idd.all isDigitChar ∧
        x ≠ '\n' ∧ ext ≠ [] ∧ ext.all isAlnumChar := by
  rw [Option.isSome_iff_exists]
  constructor
  · rintro ⟨caps, hc⟩
    obtain ⟨cd, ix, idd, x, ext, _, hs, h1, h2, h3, h4, h5, h6, h7, h8, h9⟩ :=
      rawMatch_eq_some.mp hc
    exact ⟨cd, ix, idd, x, ext, hs, h1, h2, h3, h4, h5, h6, h7, h8, h9⟩
  · rintro ⟨cd, ix, idd, x, ext, hs, h1, h2, h3, h4, h5, h6, h7, h8, h9⟩
    exact ⟨[cd, ix, idd, ext], rawMatch_eq_some.mpr
      ⟨cd, ix, idd, x, ext, rfl, hs, h1, h2, h3, h4, h5, h6, h7, h8, h9⟩⟩

/-- Claim C5: after all adds complete (starting from the empty collection),
every stored recording has a non-empty fragment list, and every fragment
carries the recording's id and the recording's (normalized) creation
timestamp. -/
theorem c5_aggregate_invariant (probe : Probe) (names : List (List Char))
    (k : List Char) (r : VideoWhole)
    (h : addAll probe emptyVideoList names k = some r) :
    r.fragments ≠ [] ∧
    ∀ f ∈ r.fragments, f.id = r.id ∧ f.creationTime = r.creationTime := by
  obtain ⟨_, _, h3, h4⟩ := listInv_addAll probe names listInv_empty k r h
  exact ⟨h3, h4⟩

/-- Claim C5, witness: the recording the C1 scenario builds satisfies the
invariant. -/
theorem c5_invariant_witness :
    c1Rec.fragments ≠ [] ∧
    ∀ f ∈ c1Rec.fragments, f.id = c1Rec.id ∧
      f.creationTime = c1Rec.creationTime :=
  c5_aggregate_invariant c1Probe c1Names c1Id c1Rec (by decide)

/-- Whether an `Add` outcome is an error. -/
def exceptErrored : Except ParseError VideoList → Bool
  | Except.error _ => true
  | Except.ok _ => false

/-- Claim C6: when the metadata probe chain fails for an entry (process or
decode failure, missing or non-string `creation_time` tag, or unparsable
timestamp), `Add` returns an error and the shared collection is left
exactly as it was. -/
theorem c6_probe_failure_unchanged (probe : Probe) (vl : VideoList)
    (name : List Char) (h : parseMetadata probe name = none) :
    exceptErrored (videoListAdd probe vl name) = true ∧
    addStep probe vl name = vl := by
  cases hfp : firstNameParse (initFragment name) with
  | none =>
    have he := @videoFragmentParse_none probe name hfp
    exact ⟨by rw [videoListAdd_err he vl]; rfl, addStep_err he vl⟩
  | some f0 =>
    have hcn := firstNameParse_currentName hfp
    have hm : parseMetadata probe f0.currentName = none := by
      rw [hcn]
      exact h
    have he : videoFragmentParse probe name =
        Except.error ParseError.metadataUnavailable := by
      rw [videoFragmentParse_some hfp, metadataStage_none hm]
    exact ⟨by rw [videoListAdd_err he vl]; rfl, addStep_err he vl⟩

/-- Claim C6, witness: a failing probe on `GX010042.mp4` leaves the empty
collection empty and surfaces an error. -/
theorem c6_probe_failure_witness :
    exceptErrored (videoListAdd failProbe emptyVideoList c1Name1) = true ∧
    addStep failProbe emptyVideoList c1Name1 = emptyVideoList :=
  c6_probe_failure_unchanged failProbe emptyVideoList c1Name1 (by decide)

/-- Claim C7: a fragment whose computed old path equals its computed new
path gets the "already renamed" decision, and on a directory where every
fragment is already canonical the rename pass performs zero filesystem
actions. -/
theorem c7_rename_idempotent (dir : List Char) (recs : List VideoWhole)
    (h : ∀ r ∈ recs, ∀ f ∈ r.fragments, inputPath dir f = newPath dir f) :
    (∀ r ∈ recs, ∀ f ∈ r.fragments,
      renameDecision (inputPath dir f) (newPath dir f) =
        RenameAction.alreadyRenamed) ∧
    (renamePlan dir recs).filter isPerform = [] := by
  have hdec : ∀ r ∈ recs, ∀ f ∈ r.fragments,
      renameDecision (inputPath dir f) (newPath dir f) =
        RenameAction.alreadyRenamed := by
    intro r hr f hf
    unfold renameDecision
    rw [if_pos (h r hr f hf)]
  refine ⟨hdec, ?_⟩
  rw [List.filter_eq_nil_iff]
  intro a ha
  unfold renamePlan at ha
  obtain ⟨r, hr, hmem⟩ := List.mem_flatMap.mp ha
  obtain ⟨f, hf, hfa⟩ := List.mem_map.mp hmem
  rw [← hfa, hdec r hr f hf]
  simp [isPerform]

/-- The already-canonical fragment for the C7 witness. -/
def c7Frag : VideoFragment :=
  { id := c1Id, codec := h264Codec, creationTime := some c1Ts, index := 1,
    extension := mp4Ext, currentName := c1Part01, newName := c1Part01 }

/-- The already-canonical recording for the C7 witness. -/
def c7Rec : VideoWhole :=
  { id := c1Id, codec := h264Codec, creationTime := some c1Ts,
    fragments := [c7Frag], expected := 1, name := c1MergedMkv }

/-- Claim C7, witness: a one-recording directory whose fragment already has
its canonical name gets only "already renamed" and an empty action list. -/
theorem c7_rename_idempotent_witness :
    (∀ r ∈ [c7Rec], ∀ f ∈ r.fragments,
      renameDecision (inputPath mp4Ext f) (newPath mp4Ext f) =
        RenameAction.alreadyRenamed) ∧
    (renamePlan mp4Ext [c7Rec]).filter isPerform = [] :=
  c7_rename_idempotent mp4Ext [c7Rec] (by decide)

/-- Claim C8: `Parse` tries the renamed parser, then the raw parser, then
the merged parser, in that order, stopping at the first success (whose
fragment then goes through the metadata stage); when none matches, it
fails with the unrecognized-name error. -/
theorem c8_parser_priority (probe : Probe) (name : List Char) :
    (∀ f, parseRenamedF (initFragment name) = some f →
      videoFragmentParse probe name = metadataStage probe f) ∧
    (parseRenamedF (initFragment name) = none →
      ∀ f, parseRawF (initFragment name) = some f →
      videoFragmentParse probe name = metadataStage probe f) ∧
    (parseRenamedF (initFragment name) = none →
      parseRawF (initFragment name) = none →
      ∀ f, parseMergedF (initFragment name) = some f →
      videoFragmentParse probe name = metadataStage probe f) ∧
    (parseRenamedF (initFragment name) = none →
      parseRawF (initFragment name) = none →
      parseMergedF (initFragment name) = none →
      videoFragmentParse probe name = Except.error ParseError.unrecognizedName) := by
  refine ⟨?_, ?_, ?_, ?_⟩
  · intro f hf
    apply videoFragmentParse_some
    unfold firstNameParse
    rw [hf]
  · intro h1 f hf
    apply videoFragmentParse_some
    unfold firstNameParse
    rw [h1, hf]
  · intro h1 h2 f hf
    apply videoFragmentParse_some
    unfold firstNameParse
    rw [h1, h2, hf]
  · intro h1 h2 h3
    apply videoFragmentParse_none
    unfold firstNameParse
    rw [h1, h2, h3]

/-- Claim C9: a filename rendered by the renamed matcher's layout (for any
values valid for its token grammars) is never matched by the raw matcher:
it starts with `R`, the raw pattern demands `G`. -/
theorem c9_renamed_never_raw (date idd ext : List Char) (n : Nat)
    (hd : takeDateGroup date = some (date, []))
    (hid1 : idd.length = 4) (hid2 : idd.all isDigitChar)
    (hn : n < 100) (he1 : ext ≠ []) (he2 : ext.all isAlnumChar) :
    rawMatch (renamedName date idd n ext) = none := by
  simp [rawMatch, renamedName, litRecordingDate, takeLit]

/-- Claim C9, witness: the rendered name for the C1 date, id `0042`,
part 1, `mp4` is rejected by the raw matcher. -/
theorem c9_renamed_never_raw_witness :
    rawMatch (renamedName c1DateStr c1Id 1 mp4Ext) = none :=
  c9_renamed_never_raw c1DateStr c1Id mp4Ext 1 (by decide) (by decide)
    (by decide) (by decide) (by decide) (by decide)

/-- Claim C10: a filename that only the merged grammar matches parses to a
fragment with index 0; its new name is rendered with part number 00, and
absorbing it never raises any recording's expected count (0 exceeds
nothing, including the fresh recording's initial 0). -/
theorem c10_merged_index_zero (probe : Probe) (name : List Char)
    (f0 f : VideoFragment)
    (h1 : parseRenamedF (initFragment name) = none)
    (h2 : parseRawF (initFragment name) = none)
    (h3 : parseMergedF (initFragment name) = some f0)
    (h : videoFragmentParse probe name = Except.ok f) :
    f.index = 0 ∧
    f.newName =
      renamedName (creationTimeStringOpt f.creationTime) f.id 0 f.extension ∧
    pad2 0 = ['0', '0'] ∧
    ∀ o : Option VideoWhole, (absorbFragment f o).expected =
      match o with
      | some r => r.expected
      | none => 0 := by
  have hfp : firstNameParse (initFragment name) = some f0 := by
    unfold firstNameParse
    rw [h1, h2, h3]
  have hidx0 : f0.index = 0 := by
    obtain ⟨_, _, _, _, hf0⟩ := parseMergedF_eq h3
    rw [hf0]
    rfl
  rw [videoFragmentParse_some hfp] at h
  cases hm : parseMetadata probe f0.currentName with
  | none =>
    rw [metadataStage_none hm] at h
    exact absurd h (by simp)
  | some ct =>
    obtain ⟨codec, t⟩ := ct
    rw [metadataStage_some hm] at h
    simp only [Except.ok.injEq] at h
    subst h
    refine ⟨hidx0, ?_, by decide, ?_⟩
    · simp only [hidx0]
      rfl
    · intro o
      cases o with
      | none =>
        rw [absorb_expected]
        simp [recordOf, hidx0]
      | some r =>
        rw [absorb_expected, recordOf_some]
        simp [hidx0]

/-- The fragment the merged-form C10 witness name parses to before the
metadata stage. -/
def c10Frag0 : VideoFragment :=
  { id := c1Id, codec := [], creationTime := none, index := 0,
    extension := mkvExt, currentName := c1MergedMkv, newName := [] }

/-- The fully parsed fragment of the C10 witness. -/
def c10Frag : VideoFragment :=
  { id := c1Id, codec := h264Codec, creationTime := some c1Ts, index := 0,
    extension := mkvExt, currentName := c1MergedMkv,
    newName := renamedName c1DateStr c1Id 0 mkvExt }

/-- Claim C10, witness: the merged-form name
`Recording _-_ Date 2023-06-01 10_00_00 _-_ ID 0042.mkv` parses to a
fragment of index 0 whose new name carries part 00, and absorbing it never
raises an expected count. -/
theorem c10_merged_index_zero_witness :
    c10Frag.index = 0 ∧
    c10Frag.newName = renamedName (creationTimeStringOpt c10Frag.creationTime)
      c10Frag.id 0 c10Frag.extension ∧
    pad2 0 = ['0', '0'] ∧
    ∀ o : Option VideoWhole, (absorbFragment c10Frag o).expected =
      match o with
      | some r => r.expected
      | none => 0 :=
  c10_merged_index_zero c1Probe c1MergedMkv c10Frag0 c10Frag
    (by decide) (by decide) (by decide) (by decide)

end Stopcon
